import Mathlib

/-!
# Verification of the highvolcryptobot backtesting core

Shallow embedding of the backtesting engine of the repository
(`src/backtesting/`): the cost model (`slippage.py`, `transaction_costs.py`),
the indicator engine (`indicators.py`), the universe/quality filter
(`data_cleaner.py`), the backtest simulator (`backtesting.py`) and the
performance analyzer (`performance.py`).

Conventions of the embedding:
* Prices, market caps, volumes and capital are `ℚ` (the Python code uses
  IEEE floats; all claims under study are about exact control flow,
  missing-value propagation and algebraic identities, not rounding).
* A pandas `NaN` cell is `Option.none`; pandas' skip-NaN aggregation rules
  (`rolling` with default `min_periods`, `groupby(...).agg('last')`,
  `cumprod`, `expanding().max()`, `.min()`, `dropna`) are modelled
  explicitly at each use site.
* A Python exception (`IndexError` from indexing an empty series) is the
  `Except.error` branch of an `Except` result.
* `ℚ` division by zero yields `0` in Lean; every theorem that divides by a
  price or entry value carries positivity hypotheses matching the boundary
  contract of the repository (prices are strictly positive).
-/

namespace HVB

/-! ## Cost model: `src/backtesting/slippage.py` and `transaction_costs.py` -/

/-- `slippage_cost(trade_value, pool_liquidity)` from `slippage.py`:
returns 0 for non-positive liquidity, otherwise a step function of
`trade_value / pool_liquidity` (1bp / 5bp / 15bp / 30bp) hard-capped at 50bp. -/
def slippage_cost (trade_value pool_liquidity : ℚ) : ℚ :=
  if pool_liquidity ≤ 0 then 0
  else
    let fraction := trade_value / pool_liquidity
    let slippage :=
      if fraction < 1/1000 then 1/10000
      else if fraction < 1/100 then 1/2000
      else if fraction < 1/20 then 3/2000
      else 3/1000
    min slippage (1/200)

/-- `apply_transaction_costs(trade_value, dex_fee, gas_fee_usd)` from
`transaction_costs.py`: `trade_value * dex_fee + gas_fee_usd` (the source
defaults are `dex_fee = 0.003`, `gas_fee_usd = 0.15`). -/
def apply_transaction_costs (trade_value dex_fee gas_fee_usd : ℚ) : ℚ :=
  trade_value * dex_fee + gas_fee_usd

/-! ## Indicator engine: `src/backtesting/indicators.py`

The indicator engine works per asset on the timestamp-sorted series of its
prices (`value`) and volumes (`total_volume`).  Each column is embedded as
an index-valued function `series index → Option ℚ` where `none` is NaN.
`rollingAt agg w g i` is pandas `Series.rolling(window=w).agg(...)` at
position `i` over the column `g` (default `min_periods = w`: the value is
present iff the window is full and every cell in it is non-NaN). -/

/-- Arithmetic mean of a list of rationals (`sum / len`). -/
def listMean (l : List ℚ) : ℚ := l.sum / l.length

/-- pandas `rolling(window=w).agg(agg)` at index `i` on column `g`
(`min_periods` defaulting to `w`): defined iff `i + 1 ≥ w` and the `w`
cells `g (i-w+1), …, g i` are all non-NaN. -/
def rollingAt (agg : List ℚ → ℚ) (w : Nat) (g : Nat → Option ℚ) (i : Nat) :
    Option ℚ :=
  if i + 1 < w then none
  else
    let cells := (List.range' (i + 1 - w) w).map g
    let vals := cells.filterMap id
    if vals.length = w then some (agg vals) else none

/-- Column access: `vs[j]` as an `Option`. -/
def colAt (vs : List ℚ) (j : Nat) : Option ℚ := vs[j]?

/-- pandas `Series.diff()` of the price column at index `j`. -/
def deltaAt (vs : List ℚ) (j : Nat) : Option ℚ :=
  if j = 0 then none
  else
    match vs[j]?, vs[j - 1]? with
    | some v, some p => some (v - p)
    | _, _ => none

/-- pandas `Series.pct_change(n)` of the price column at index `j`
(`momentum_7d`/`momentum_30d` use `n = 7`/`30`, `returns` uses `n = 1`). -/
def pctChangeAt (n : Nat) (vs : List ℚ) (j : Nat) : Option ℚ :=
  if j < n then none
  else
    match vs[j]?, vs[j - n]? with
    | some v, some p => some ((v - p) / p)
    | _, _ => none

/-- `sma_w` column: `value.rolling(window=w).mean()` at index `i`. -/
def smaAt (w : Nat) (vs : List ℚ) (i : Nat) : Option ℚ :=
  rollingAt listMean w (colAt vs) i

/-- Sample variance (pandas `std(ddof=1)` squared) of a list. -/
def sampleVar (l : List ℚ) : ℚ :=
  (l.map (fun x => (x - listMean l) ^ 2)).sum / (l.length - 1 : ℚ)

/-- `bb_std` column squared: `value.rolling(20).std()` at index `i`, embedded
as the rolling sample variance (the square of the code's value; squaring is
injective and monotone on the non-negative standard deviation, and the
missingness pattern — the only aspect any claim depends on — is identical). -/
def bbStdSqAt (vs : List ℚ) (i : Nat) : Option ℚ :=
  rollingAt sampleVar 20 (colAt vs) i

/-- `volume_sma_20` column: `total_volume.rolling(20).mean()` at index `i`. -/
def volumeSma20At (ws : List ℚ) (i : Nat) : Option ℚ :=
  rollingAt listMean 20 (colAt ws) i

/-- `volume_ratio` column: `total_volume / volume_sma_20` at index `i`. -/
def volumeRatioAt (ws : List ℚ) (i : Nat) : Option ℚ :=
  match colAt ws i, volumeSma20At ws i with
  | some w, some s => some (w / s)
  | _, _ => none

/-- `volatility_30d` column squared: `returns.rolling(30).std() * sqrt(365)`
at index `i`, embedded as the rolling sample variance of the `pct_change`
column scaled by `365` (again the square of the code's value: `√365` is
irrational; missingness and sign comparisons are preserved). -/
def volatility30dSqAt (vs : List ℚ) (i : Nat) : Option ℚ :=
  rollingAt (fun l => sampleVar l * 365) 30 (pctChangeAt 1 vs) i

/-- One cell of `delta.where(delta > 0, 0)`: `delta.where(delta > 0, 0)`
maps the NaN first difference and the non-positive differences to `0`
(`NaN > 0` is `False` in pandas), so the gain column is NaN-free. -/
def gainCell (vs : List ℚ) (j : Nat) : ℚ :=
  match deltaAt vs j with
  | some d => if 0 < d then d else 0
  | none => 0

/-- One cell of `-delta.where(delta < 0, 0)`. -/
def lossCell (vs : List ℚ) (j : Nat) : ℚ :=
  match deltaAt vs j with
  | some d => if d < 0 then -d else 0
  | none => 0

/-- `calculate_rsi(prices, 14)` from `indicators.py` at index `i`.
The gain/loss columns are NaN-free, so their 14-rolling means exist from
index 13 on.  `rs = gain/loss` is `+inf` when the average loss is 0 and the
average gain is positive, giving `rsi = 100 - 100/(1+rs) = 100`; it is NaN
(missing) when both averages are 0. -/
def rsiAt (vs : List ℚ) (i : Nat) : Option ℚ :=
  if i < 13 ∨ vs.length ≤ i then none
  else
    let g := listMean ((List.range' (i - 13) 14).map (gainCell vs))
    let l := listMean ((List.range' (i - 13) 14).map (lossCell vs))
    if l = 0 then
      if g = 0 then none else some 100
    else some (100 - 100 / (1 + g / l))

/-! ## Universe/quality filter: `src/backtesting/data_cleaner.py`

`apply_quality_filters` loops over tokens; for each token it takes the
token's rows sorted by timestamp and keeps the token iff average market cap
is at least 1,000,000, it has at least 730 rows, and no absolute one-step
price change exceeds 300%.  Note the function takes the whole panel: it has
no cutoff parameter. -/

/-- One raw observation of the Price Panel (one row of `get_prices()`):
timestamp, price `value` and `market_cap`. -/
structure PriceRow where
  ts : Nat
  value : ℚ
  marketCap : ℚ
deriving DecidableEq, Repr

/-- Insert a natural number into an ascending duplicate-free list. -/
def insertSortedNat (x : Nat) : List Nat → List Nat
  | [] => [x]
  | y :: ys =>
    if x < y then x :: y :: ys
    else if x = y then y :: ys
    else y :: insertSortedNat x ys

/-- Insertion sort of a token's rows by timestamp
(`sort_values('timestamp')`). -/
def insertByTs (r : PriceRow) : List PriceRow → List PriceRow
  | [] => [r]
  | x :: xs => if r.ts < x.ts then r :: x :: xs else x :: insertByTs r xs

/-- `df[df['token_address'] == t].sort_values('timestamp')`. -/
def sortByTs (rows : List PriceRow) : List PriceRow :=
  rows.foldl (fun acc r => insertByTs r acc) []

/-- `price_changes = value.pct_change().abs(); price_changes.max() > 3.0`
as one linear pass over consecutive prices (`pct_change` relates each price
to its predecessor; the NaN first difference is skipped by pandas
`.max()`, and an empty maximum is NaN with `NaN > 3.0` being `False`). -/
def anyChangeAbove3 (prev : ℚ) : List ℚ → Bool
  | [] => false
  | x :: xs => decide (3 < |(x - prev) / prev|) || anyChangeAbove3 x xs

/-- The per-token body of `apply_quality_filters` (lines 32–55 of
`data_cleaner.py`) on the token's timestamp-sorted rows: the token is kept
iff its average market cap is ≥ 1,000,000, it has ≥ 730 rows, and the
maximum absolute `pct_change` of its price is ≤ 3. -/
def qualityFilterKeep (rows : List PriceRow) : Bool :=
  let sorted := sortByTs rows
  let avgMcap := listMean (sorted.map (·.marketCap))
  if avgMcap < 1000000 then false
  else if sorted.length < 730 then false
  else
    match sorted.map (·.value) with
    | [] => true
    | v :: vs => !(anyChangeAbove3 v vs)

/-! ## Backtest simulator: `backtest_strategy` in `src/backtesting/backtesting.py`

The simulator consumes the Indicator Frame: rows keyed by (token, timestamp)
carrying the price and the indicator columns the strategy reads; `none` is a
NaN indicator cell.  It walks `i = 200 .. len(dates)-1`; on a rebalance day
it recomputes candidates from the latest non-null metrics as of the current
date and replaces the position set; every day it marks positions to market
using the current→next day pair, deducting slippage and transaction costs
from each day's return, evaluates exits, compounds capital and emits one
`(date, portfolio_value, n_tokens)` entry — except that a rebalance attempt
with no candidates executes `continue`, skipping the mark-to-market and the
emit for that whole day.

The cost constants (`pool_liquidity = 5_000_000`, `dex_fee = 0.003`,
`gas_fee_usd = 0.15`) are hard-coded in the source; the embedding gathers
them in `CostParams` with `codeParams` holding the source's values, so that
the spec's "zero fees, zero slippage" configuration is expressible. -/

/-- One row of the Indicator Frame, carrying exactly the columns
`backtest_strategy` reads. -/
structure Row where
  token : Nat
  ts : Nat
  value : ℚ
  sma50 : Option ℚ
  sma200 : Option ℚ
  bb : Option ℚ
  rsi : Option ℚ
  mom30 : Option ℚ
  volr : Option ℚ
  vol30 : Option ℚ
deriving DecidableEq, Repr

/-- A held position: `{'entry_price': …, 'allocation': …}` keyed by token. -/
structure Position where
  token : Nat
  entry : ℚ
  alloc : ℚ
deriving DecidableEq, Repr

/-- One emitted element of the Portfolio Value Series. -/
structure Entry where
  date : Nat
  portfolio_value : ℚ
  n_tokens : Nat
deriving DecidableEq, Repr

/-- Simulator state: capital, open positions, index of the last rebalance. -/
structure SimState where
  capital : ℚ
  positions : List Position
  lastReb : Nat
deriving DecidableEq, Repr

/-- Cost-model constants used by the simulator. -/
structure CostParams where
  dexFee : ℚ
  gasUsd : ℚ
  poolLiquidity : ℚ
deriving DecidableEq, Repr

/-- The constants hard-coded in `backtesting.py` /
`transaction_costs.py`. -/
def codeParams : CostParams := ⟨3/1000, 3/20, 5000000⟩

/-- Frictionless configuration: zero fee, zero gas, zero pool liquidity
(`slippage_cost` returns 0 for non-positive liquidity). -/
def zeroParams : CostParams := ⟨0, 0, 0⟩

/-- `sorted(df['timestamp'].unique())` (a right fold of sorted insertion;
the result is the ascending duplicate-free list of timestamps whatever the
panel order). -/
def sortedDates (df : List Row) : List Nat :=
  df.foldr (fun r acc => insertSortedNat r.ts acc) []

/-- Ascending list of the tokens having at least one row with `ts ≤ D`
(the group keys of `historical_data.groupby('token_address')`, sorted). -/
def tokensAsOf (df : List Row) (D : Nat) : List Nat :=
  (df.filter (fun r => decide (r.ts ≤ D))).foldl
    (fun acc r => insertSortedNat r.token acc) []

/-- Last non-NaN value of a column (`groupby(...).agg('last')` skips NaN). -/
def lastSome (l : List (Option ℚ)) : Option ℚ := (l.filterMap id).getLast?

/-- A token's row of `latest_metrics` after `dropna()`. -/
structure Metric where
  token : Nat
  value : ℚ
  sma50 : ℚ
  sma200 : ℚ
  bb : ℚ
  rsi : ℚ
  mom30 : ℚ
  volr : ℚ
  vol30 : ℚ
deriving DecidableEq, Repr

/-- The `latest_metrics` row of token `t` as of date `D`: per column the
last non-null entry of the token's rows with `ts ≤ D` (in panel order);
`none` if some column has no valid entry at all (the row is then dropped by
`dropna()`). -/
def metricFor (df : List Row) (D : Nat) (t : Nat) : Option Metric :=
  let rows := df.filter (fun r => decide (r.token = t) && decide (r.ts ≤ D))
  match rows.getLast? with
  | none => none
  | some lastRow =>
    match lastSome (rows.map (·.sma50)), lastSome (rows.map (·.sma200)),
        lastSome (rows.map (·.bb)), lastSome (rows.map (·.rsi)),
        lastSome (rows.map (·.mom30)), lastSome (rows.map (·.volr)),
        lastSome (rows.map (·.vol30)) with
    | some a, some b, some c, some d, some e, some f, some g =>
      some ⟨t, lastRow.value, a, b, c, d, e, f, g⟩
    | _, _, _, _, _, _, _ => none

/-- The four entry filters of the strategy: price above the 200-day SMA,
oversold (RSI < 50 or Bollinger position < 0.4), 30-day momentum above
−0.15, volume ratio above 0.5. -/
def passFilters (m : Metric) : Bool :=
  decide (m.sma200 < m.value) &&
  (decide (m.rsi < 50) || decide (m.bb < 2/5)) &&
  decide (-(3/20) < m.mom30) &&
  decide (1/2 < m.volr)

/-- The candidate list on date `D`: dropna'd latest metrics (token-ascending,
as `groupby` sorts keys) filtered by the entry conditions. -/
def candidatesAt (df : List Row) (D : Nat) : List Metric :=
  ((tokensAsOf df D).filterMap (metricFor df D)).filter passFilters

/-- Maximum of a list of rationals (used for `candidates[col].max()`). -/
def maxQ (l : List ℚ) : ℚ := l.foldl max (l.headD 0)

/-- `quality_score`: 0.5·(40−rsi)/40 + 0.3·(1−vol/max_vol) +
0.2·(volume_ratio/max_volume_ratio). -/
def qualityScore (mv mvr : ℚ) (m : Metric) : ℚ :=
  (40 - m.rsi) / 40 * (1/2) + (1 - m.vol30 / mv) * (3/10) +
    m.volr / mvr * (1/5)

/-- Stable descending insertion (ties keep earlier candidates first, as
`nlargest` with `keep='first'`). -/
def insertDesc (score : Metric → ℚ) (c : Metric) : List Metric → List Metric
  | [] => [c]
  | x :: xs =>
    if score c ≤ score x then x :: insertDesc score c xs else c :: x :: xs

/-- Stable descending sort by score. -/
def sortDesc (score : Metric → ℚ) (l : List Metric) : List Metric :=
  l.foldl (fun acc c => insertDesc score c acc) []

/-- `candidates.nlargest(min(10, len(candidates)), 'quality_score')`.
When `max_vol = 0` every score is NaN (`0/0`) and `nlargest` drops all
NaN-scored rows, returning the empty selection. -/
def selectedAt (df : List Row) (D : Nat) : List Metric :=
  let cands := candidatesAt df D
  if cands = [] then []
  else
    let mv := maxQ (cands.map (·.vol30))
    let mvr := maxQ (cands.map (·.volr))
    if mv = 0 then []
    else (sortDesc (qualityScore mv mvr) cands).take (min 10 cands.length)

/-- `(i - last_rebalance) >= rebalance_days` (the loop keeps
`i ≥ last_rebalance`, so truncated subtraction agrees with Python). -/
def shouldReb (rd i lastReb : Nat) : Bool := decide (rd ≤ i - lastReb)

/-- The rebalance sub-step of one simulated day.  `none` models the
`continue` statements (lines 84–85 and 105–107): a rebalance attempt that
finds no non-null metrics or no candidate skips the rest of the day.  On a
successful rebalance the position set is replaced by the selection with
equal allocations `capital / len(selected)` and entry price the candidate's
latest value, and `last_rebalance` is set to `i`; if the selection is empty
(NaN scores) the existing positions are kept. -/
def rebalPhase (rd : Nat) (df : List Row) (dates : List Nat) (i : Nat)
    (s : SimState) : Option SimState :=
  if shouldReb rd i s.lastReb then
    let D := dates.getD i 0
    if candidatesAt df D = [] then none
    else
      let sel := selectedAt df D
      let positions :=
        if sel = [] then s.positions
        else sel.map fun m => ⟨m.token, m.value, s.capital / sel.length⟩
      some ⟨s.capital, positions, i⟩
  else some s

/-- First row of token `t` on date `d` (`df[(token) & (timestamp)]
.values[0]`). -/
def rowAt (df : List Row) (t : Nat) (d : Nat) : Option Row :=
  df.find? (fun r => decide (r.token = t) && decide (r.ts = d))

/-- `NaN > c` is `False` in pandas: comparison of an optional indicator. -/
def oGt (o : Option ℚ) (c : ℚ) : Bool :=
  match o with
  | some x => decide (c < x)
  | none => false

/-- The exit condition of lines 164–168: stop-loss on total return since
entry below −12%, or current RSI > 70, or current Bollinger position
> 0.95. -/
def exitTest (entry nextValue : ℚ) (r : Row) : Bool :=
  decide ((nextValue - entry) / entry < -(12/100)) || oGt r.rsi 70 ||
    oGt r.bb (19/20)

/-- One position's processing inside the daily loop: if the token has rows
on both the current and the next date, its (friction-adjusted) daily return
and exit flag; otherwise zero contribution and no exit. -/
def posDay (P : CostParams) (df : List Row) (D nextD : Nat) (p : Position) :
    ℚ × Bool :=
  match rowAt df p.token D, rowAt df p.token nextD with
  | some r, some r' =>
    let raw := (r'.value - r.value) / r.value
    let dr := raw - slippage_cost p.alloc P.poolLiquidity -
      apply_transaction_costs p.alloc P.dexFee P.gasUsd / p.alloc
    (dr, exitTest p.entry r'.value r)
  | _, _ => (0, false)

/-- The daily mark-to-market of lines 133–180: runs only when a next date
exists and positions are open; each position contributes its daily return
divided by the day-start position count, exited positions are removed at
end of day, and capital compounds by the blended return. -/
def markPhase (P : CostParams) (df : List Row) (dates : List Nat) (i : Nat)
    (s : SimState) : SimState :=
  if i + 1 < dates.length ∧ s.positions ≠ [] then
    let D := dates.getD i 0
    let nextD := dates.getD (i + 1) 0
    let n : ℚ := s.positions.length
    let contrib := (s.positions.map (fun p => (posDay P df D nextD p).1 / n)).sum
    let exits := (s.positions.filter
      (fun p => (posDay P df D nextD p).2)).map (·.token)
    let positions' := s.positions.filter (fun p => !(exits.contains p.token))
    ⟨s.capital * (1 + contrib), positions', s.lastReb⟩
  else s

/-- One simulated day: rebalance sub-step (possibly `continue`), then daily
mark-to-market, then the emit of `(date, capital, open position count)`. -/
def stepDay (P : CostParams) (rd : Nat) (df : List Row) (dates : List Nat)
    (i : Nat) (s : SimState) : SimState × Option Entry :=
  match rebalPhase rd df dates i s with
  | none => (s, none)
  | some s1 =>
    let s2 := markPhase P df dates i s1
    (s2, some ⟨dates.getD i 0, s2.capital, s2.positions.length⟩)

/-- The main loop over day indices, collecting emitted entries. -/
def runAux (P : CostParams) (rd : Nat) (df : List Row) (dates : List Nat) :
    SimState → List Nat → List Entry
  | _, [] => []
  | s, i :: rest =>
    match stepDay P rd df dates i s with
    | (s', some e) => e :: runAux P rd df dates s' rest
    | (s', none) => runAux P rd df dates s' rest

/-- Final state of the loop over day indices. -/
def runStates (P : CostParams) (rd : Nat) (df : List Row) (dates : List Nat)
    (s : SimState) (l : List Nat) : SimState :=
  l.foldl (fun s i => (stepDay P rd df dates i s).1) s

/-- Initial state: full capital, no positions, `last_rebalance = 200`. -/
def initState (cap : ℚ) : SimState := ⟨cap, [], 200⟩

/-- The loop of `backtest_strategy`: days `200 .. len(dates)-1`. -/
def backtestRun (P : CostParams) (df : List Row) (initial : ℚ) (rd : Nat) :
    List Entry :=
  let dates := sortedDates df
  runAux P rd df dates (initState initial) ((List.range dates.length).drop 200)

/-- A raised Python exception. -/
inductive RunError where
  | indexError
deriving DecidableEq, Repr

/-- `backtest_strategy(df, initial_capital, rebalance_days)`: on an empty
panel the banner `print(f"... {dates[0]} ...")` raises `IndexError` before
the loop; otherwise the collected Portfolio Value Series is returned. -/
def backtest_strategy (P : CostParams) (df : List Row) (initial : ℚ)
    (rd : Nat) : Except RunError (List Entry) :=
  if sortedDates df = [] then .error .indexError
  else .ok (backtestRun P df initial rd)

/-! ## SMA strategy: `src/backtesting/strategies/sma_strategy_20.py`

The SMA strategy variant applies the transaction cost at entry (marking the
entry price up) and slippage plus transaction cost at stop-loss exit only;
no friction on ordinary holding days.  Its cost constants are the source
defaults (`dex_fee = 0.003`, `gas_fee_usd = 0.15`) and a hard-coded
`pool_liquidity = 100_000_000` at the stop-loss. -/

/-- Entry price of `sma_strategy_20.py` lines 54–55:
`value * (1 + tx_cost / allocation)`. -/
def smaEntryPrice (dexFee gasUsd alloc value : ℚ) : ℚ :=
  value * (1 + apply_transaction_costs alloc dexFee gasUsd / alloc)

/-- Per-position increment to the SMA strategy's daily return (lines
87–103): the previous→current price return weighted by
`allocation / capital`; when the pnl since entry breaches −8% the slippage
and transaction-cost penalty is subtracted and the position is flagged for
exit. -/
def smaPosDelta (dexFee gasUsd todayPrice yesterdayPrice capital : ℚ)
    (pos : Position) : ℚ × Bool :=
  let pnl := (todayPrice - pos.entry) / pos.entry
  let weight := pos.alloc / capital
  let base := (todayPrice - yesterdayPrice) / yesterdayPrice * weight
  if pnl < -(8/100) then
    (base - (slippage_cost pos.alloc 100000000 +
      apply_transaction_costs pos.alloc dexFee gasUsd / pos.alloc), true)
  else (base, false)

/-! ## Performance analyzer: `src/backtesting/performance.py`

`calculate_performance_metrics` first evaluates
`portfolio_df['portfolio_value'].iloc[-1]`, which raises `IndexError` on an
empty series.  The drawdown pipeline (lines 26–29) is
`cumulative = (1 + daily_return).cumprod()`,
`running_max = cumulative.expanding().max()`,
`max_drawdown = ((cumulative - running_max)/running_max).min()`, with
pandas skip-NaN semantics throughout (the first daily return is NaN).
The annualized return, volatility, Sharpe and Calmar involve real-valued
rational powers and square roots; no claim under study depends on their
values, so the embedded metrics record carries the fields the claims read. -/

/-- pandas `cumprod()` with skip-NaN semantics: NaN cells stay NaN, the
running product continues over them. -/
def cumprodSkip (acc : ℚ) : List (Option ℚ) → List (Option ℚ)
  | [] => []
  | none :: l => none :: cumprodSkip acc l
  | some x :: l => some (acc * x) :: cumprodSkip (acc * x) l

/-- pandas `expanding().max()` with skip-NaN semantics. -/
def expMaxSkip (acc : Option ℚ) : List (Option ℚ) → List (Option ℚ)
  | [] => []
  | none :: l => none :: expMaxSkip acc l
  | some x :: l =>
    let m := match acc with | none => x | some a => max a x
    some m :: expMaxSkip (some m) l

/-- Minimum of a list of rationals. -/
def listMinO : List ℚ → Option ℚ
  | [] => none
  | x :: xs =>
    match listMinO xs with
    | none => some x
    | some m => some (min x m)

/-- pandas `Series.min()`: skips NaN, NaN on an all-NaN series. -/
def minSkip (l : List (Option ℚ)) : Option ℚ := listMinO (l.filterMap id)

/-- Elementwise `(cumulative - running_max) / running_max`. -/
def ddCombine : List (Option ℚ) → List (Option ℚ) → List (Option ℚ) :=
  List.zipWith fun c m =>
    match c, m with
    | some c, some m => some ((c - m) / m)
    | _, _ => none

/-- `daily_return = portfolio_value.pct_change()` as an option list. -/
def dailyReturns (vs : List ℚ) : List (Option ℚ) :=
  (List.range vs.length).map (pctChangeAt 1 vs)

/-- `cumulative = (1 + daily_return).cumprod()` of lines 26–29 of
`performance.py`. -/
def cumulativeOf (vs : List ℚ) : List (Option ℚ) :=
  cumprodSkip 1 ((dailyReturns vs).map (Option.map (1 + ·)))

/-- Lines 26–29 of `performance.py`: the maximum drawdown of a
portfolio-value series. -/
def max_drawdown (vs : List ℚ) : Option ℚ :=
  minSkip (ddCombine (cumulativeOf vs) (expMaxSkip none (cumulativeOf vs)))

/-- The fields of the metrics record that the claims under study read. -/
structure PerfMetrics where
  final_value : ℚ
  total_return : ℚ
  maxDrawdown : Option ℚ
  n_days : Nat
deriving DecidableEq, Repr

/-- `calculate_performance_metrics(portfolio_df, initial_capital)`:
`IndexError` on an empty series, otherwise the metrics record. -/
def calculate_performance_metrics (pf : List Entry) (initial : ℚ) :
    Except RunError PerfMetrics :=
  match pf.getLast? with
  | none => .error .indexError
  | some last =>
    .ok ⟨last.portfolio_value, (last.portfolio_value - initial) / initial,
      max_drawdown (pf.map (·.portfolio_value)), pf.length⟩

/-! ## Trace predicates and concrete instances -/

/-- The summed contribution of token `t`'s positions to one day's blended
portfolio return (each position contributes `(posDay …).1 / n`; the factor
`1/n` is omitted here as it is common to all positions of the day). -/
def tokenContribution (P : CostParams) (df : List Row) (D nextD : Nat)
    (t : Nat) (positions : List Position) : ℚ :=
  ((positions.filter (fun p => decide (p.token = t))).map
    (fun p => (posDay P df D nextD p).1)).sum

/-- The run over day indices `l` from state `s` emits one entry on every
day (no rebalance attempt hits the `continue`). -/
def NoSkip (P : CostParams) (rd : Nat) (df : List Row) (dates : List Nat) :
    SimState → List Nat → Prop
  | _, [] => True
  | s, i :: rest =>
    (stepDay P rd df dates i s).2.isSome = true ∧
    NoSkip P rd df dates (stepDay P rd df dates i s).1 rest

/-- `k` simulated days starting at day `i` and state `s` during which no
rebalance opens a position (the pre-entry warm-up phase of a run: after
each day's rebalance sub-step the position set is still empty). -/
def emptyPhaseB (P : CostParams) (rd : Nat) (df : List Row)
    (dates : List Nat) : Nat → Nat → SimState → Bool
  | _, 0, _ => true
  | i, k + 1, s =>
    match rebalPhase rd df dates i s with
    | none => emptyPhaseB P rd df dates (i + 1) k s
    | some s1 =>
      s1.positions.isEmpty &&
      emptyPhaseB P rd df dates (i + 1) k (markPhase P df dates i s1)

/-- A clean single-asset holding phase of `k + 1` simulated days starting
at day `i` in state `s`: every day's rebalance sub-step emits (never
`continue`s) and leaves exactly one position, on token `t`; token `t` has
rows with positive prices on the current (and, except on the last day, the
next) date; and the exit condition never fires. These are exactly the
hypotheses of the spec's capital-conservation property: one held asset
across the horizon, prices present every simulated day, no exit
triggered — plus no skipped day. -/
def cleanHoldB (P : CostParams) (rd : Nat) (df : List Row) (dates : List Nat)
    (t : Nat) : Nat → Nat → SimState → Bool
  | i, 0, s =>
    (rebalPhase rd df dates i s).isSome &&
      (match rowAt df t (dates.getD i 0) with
       | some r => decide (0 < r.value)
       | none => false)
  | i, k + 1, s =>
    match rebalPhase rd df dates i s with
    | none => false
    | some s1 =>
      match s1.positions with
      | [p] =>
        match rowAt df t (dates.getD i 0) with
        | some r =>
          match rowAt df t (dates.getD (i + 1) 0) with
          | some r' =>
            decide (p.token = t) && decide (0 < r.value) &&
            decide (0 < r'.value) && !(exitTest p.entry r'.value r) &&
            cleanHoldB P rd df dates t (i + 1) k (markPhase P df dates i s1)
          | none => false
        | none => false
      | _ => false

/-- C1 counterexample data: one token's rows, 729 observations at
timestamps `728 .. 0` (order irrelevant: the filter sorts by timestamp),
constant price 1, market cap 2,000,000. -/
def panelRowsC1 : List PriceRow :=
  (List.range 729).map fun k => ⟨728 - k, 1, 2000000⟩

/-- C1 counterexample data: a single additional observation strictly after
the cutoff `D = 728`. -/
def futureRowC1 : PriceRow := ⟨1000, 1, 2000000⟩

/-- C2 counterexample panel: one token, 208 dates `0 .. 207`, every
indicator column NaN (so the day-207 rebalance attempt finds no metrics
and `continue`s). -/
def panelC2 : List Row :=
  (List.range 208).map fun k =>
    ⟨0, k, 1, none, none, none, none, none, none, none⟩

/-- C4 counterexample panel row: one token, price 2 through day 214 and 4
afterwards; RSI 30 except 60 on day 214 (so the day-214 rebalance attempt
finds no candidate and `continue`s, skipping that day's mark-to-market
while the position is held). -/
def rowC4 (k : Nat) : Row :=
  ⟨0, k, if k ≤ 214 then 2 else 4, some 1, some 1, some (1/2),
    some (if k = 214 then 60 else 30), some 0, some 1, some 1⟩

/-- C4 counterexample panel over dates `0 .. 216`. -/
def panelC4 : List Row := (List.range 217).map rowC4

/-- C4 witness panel row: one token always qualifying, price 2 through day
209 and 3 afterwards. -/
def rowW4 (k : Nat) : Row :=
  ⟨0, k, if k ≤ 209 then 2 else 3, some 1, some 1, some (1/2), some 30,
    some 0, some 1, some 1⟩

/-- C4 witness panel over dates `0 .. 216`. -/
def panelW4 : List Row := (List.range 217).map rowW4

/-- C6 counterexample data: the held token's row on the current date (RSI
30, Bollinger position 0.5: no exit signal). -/
def rowC6a : Row := ⟨0, 0, 1, none, none, some (1/2), some 30, none, none, none⟩

/-- C6 counterexample data: the held token's row on the next date, equal
price (raw daily return 0, no stop-loss). -/
def rowC6b : Row := ⟨0, 1, 1, none, none, none, none, none, none, none⟩

/-- C6 counterexample panel. -/
def dfC6 : List Row := [rowC6a, rowC6b]

/-- C6 counterexample position: entry 1, allocation 1000. -/
def posC6 : Position := ⟨0, 1, 1000⟩

/-- Structural form of the `pct_change` column after the first entry:
`pcts prev l` is the list of successive relative changes starting from
`prev`. -/
def pcts (prev : ℚ) : List ℚ → List ℚ
  | [] => []
  | x :: xs => (x - prev) / prev :: pcts x xs

/-- Running maximum of a list, seeded with `a`. -/
def runMax (a : ℚ) : List ℚ → List ℚ
  | [] => []
  | x :: xs => max a x :: runMax (max a x) xs

/-- The drawdown value list of a series against its running peaks. -/
def ddPoint (c m : ℚ) : ℚ := (c - m) / m

/-- C9 witness data: token 5's row on date 0, price 1. -/
def rowC9a : Row := ⟨5, 0, 1, none, none, none, none, none, none, none⟩

/-- C9 witness data: token 5's row on date 1, price 1/2 (a −50% move,
breaching the −12% stop-loss). -/
def rowC9b : Row := ⟨5, 1, 1/2, none, none, none, none, none, none, none⟩

/-- C9 witness panel. -/
def dfC9 : List Row := [rowC9a, rowC9b]

/-- C9 witness position: entered at price 1 with allocation 100. -/
def posC9 : Position := ⟨5, 1, 100⟩

/-- C9 witness state holding `posC9`. -/
def stateC9 : SimState := ⟨1000, [posC9], 0⟩

/-! ## Theorems -/

/-- C5: the slippage function is monotonically non-decreasing in trade
notional for every fixed positive pool liquidity, is bounded above by the
absolute cap 0.005 for every input, and returns 0 whenever
`pool_liquidity ≤ 0`. -/
theorem slippage_cost_monotone_capped_zero (x y L : ℚ) :
    (0 < L → 0 ≤ x → x ≤ y → slippage_cost x L ≤ slippage_cost y L) ∧
    slippage_cost x L ≤ 1/200 ∧
    (L ≤ 0 → slippage_cost x L = 0) := by
  refine ⟨?_, ?_, ?_⟩
  · intro hL _ hxy
    have hL' : ¬ L ≤ 0 := not_le.mpr hL
    simp only [slippage_cost, hL', if_false]
    have hfrac : x / L ≤ y / L := by gcongr
    refine min_le_min ?_ le_rfl
    split_ifs <;> (try norm_num) <;> (simp only [not_lt] at *; linarith)
  · simp only [slippage_cost]
    split_ifs <;> simp [min_le_right]
  · intro h
    simp [slippage_cost, h]

/-- Witness for C5 at concrete inputs `x = 1`, `y = 2`, `L = 100` and
`L = -1`. -/
theorem slippage_cost_monotone_capped_zero_witness :
    slippage_cost 1 100 ≤ slippage_cost 2 100 ∧
    slippage_cost 1 100 ≤ 1/200 ∧ slippage_cost 1 (-1) = 0 :=
  ⟨(slippage_cost_monotone_capped_zero 1 2 100).1 (by norm_num) (by norm_num)
      (by norm_num),
    (slippage_cost_monotone_capped_zero 1 2 100).2.1,
    (slippage_cost_monotone_capped_zero 1 1 (-1)).2.2 (by norm_num)⟩

theorem rollingAt_congr (agg : List ℚ → ℚ) (w : Nat) (g₁ g₂ : Nat → Option ℚ)
    (i : Nat) (h : ∀ j ≤ i, g₁ j = g₂ j) :
    rollingAt agg w g₁ i = rollingAt agg w g₂ i := by
  unfold rollingAt
  split
  · rfl
  · rename_i hw
    have hmap : (List.range' (i + 1 - w) w).map g₁ =
        (List.range' (i + 1 - w) w).map g₂ := by
      apply List.map_congr_left
      intro j hj
      rw [List.mem_range'_1] at hj
      exact h j (by omega)
    rw [hmap]

theorem colAt_append (s u : List ℚ) (j : Nat) (h : j < s.length) :
    colAt (s ++ u) j = colAt s j := by
  unfold colAt
  rw [List.getElem?_append_left h]

theorem deltaAt_append (s u : List ℚ) (j : Nat) (h : j < s.length) :
    deltaAt (s ++ u) j = deltaAt s j := by
  unfold deltaAt
  split
  · rfl
  · rw [List.getElem?_append_left h, List.getElem?_append_left (by omega)]

theorem pctChangeAt_append (n : Nat) (s u : List ℚ) (j : Nat)
    (h : j < s.length) : pctChangeAt n (s ++ u) j = pctChangeAt n s j := by
  unfold pctChangeAt
  split
  · rfl
  · rw [List.getElem?_append_left h, List.getElem?_append_left (by omega)]

/-- C1 (amended): per-asset causality of the Indicator Engine.  Every
indicator column at a position `i` inside the original series is unchanged
when observations are appended after it (equivalently: values at ≤ D do not
change when observations dated > D are added to or removed from the panel);
this holds for the generic rolling operator with any aggregator — hence for
the rolling standard deviations — and for each concrete column.  The
universe/quality filter, by contrast, has no cutoff parameter and is NOT
invariant — see the counterexample. -/
theorem indicator_values_causal (s u : List ℚ) (i : Nat) (hi : i < s.length) :
    (∀ agg w, rollingAt agg w (colAt (s ++ u)) i = rollingAt agg w (colAt s) i) ∧
    (∀ w, smaAt w (s ++ u) i = smaAt w s i) ∧
    bbStdSqAt (s ++ u) i = bbStdSqAt s i ∧
    rsiAt (s ++ u) i = rsiAt s i ∧
    (∀ n, pctChangeAt n (s ++ u) i = pctChangeAt n s i) ∧
    volatility30dSqAt (s ++ u) i = volatility30dSqAt s i ∧
    volumeSma20At (s ++ u) i = volumeSma20At s i ∧
    volumeRatioAt (s ++ u) i = volumeRatioAt s i := by
  have hcol : ∀ j ≤ i, colAt (s ++ u) j = colAt s j := fun j hj =>
    colAt_append s u j (lt_of_le_of_lt hj hi)
  have hpct : ∀ n, ∀ j ≤ i, pctChangeAt n (s ++ u) j = pctChangeAt n s j :=
    fun n j hj => pctChangeAt_append n s u j (lt_of_le_of_lt hj hi)
  refine ⟨fun agg w => rollingAt_congr agg w _ _ i hcol,
    fun w => rollingAt_congr listMean w _ _ i hcol,
    rollingAt_congr sampleVar 20 _ _ i hcol, ?_, fun n => hpct n i le_rfl,
    rollingAt_congr _ 30 _ _ i (hpct 1), rollingAt_congr listMean 20 _ _ i hcol,
    ?_⟩
  · unfold rsiAt
    have h1 : ¬ (s ++ u).length ≤ i := by
      rw [List.length_append]; omega
    have h2 : ¬ s.length ≤ i := by omega
    simp only [h1, h2, or_false]
    split
    · rfl
    · rename_i h13
      have hwin : ∀ j ∈ List.range' (i - 13) 14, j ≤ i := by
        intro j hj
        rw [List.mem_range'_1] at hj
        omega
      have hgain : (List.range' (i - 13) 14).map (gainCell (s ++ u)) =
          (List.range' (i - 13) 14).map (gainCell s) := by
        apply List.map_congr_left
        intro j hj
        unfold gainCell
        rw [deltaAt_append s u j (lt_of_le_of_lt (hwin j hj) hi)]
      have hloss : (List.range' (i - 13) 14).map (lossCell (s ++ u)) =
          (List.range' (i - 13) 14).map (lossCell s) := by
        apply List.map_congr_left
        intro j hj
        unfold lossCell
        rw [deltaAt_append s u j (lt_of_le_of_lt (hwin j hj) hi)]
      rw [hgain, hloss]
  · unfold volumeRatioAt
    rw [colAt_append s u i hi,
      show volumeSma20At (s ++ u) i = volumeSma20At s i from
        rollingAt_congr listMean 20 _ _ i hcol]

/-- C10: at every series position `i ≥ 14` (so the trailing 14-day window
consists of real price changes), if the window contains at least one
strictly positive change and no strictly negative change then the RSI is
exactly 100; and if all 14 changes are zero then the RSI is missing. -/
theorem rsiAt_zero_loss_convention (vs : List ℚ) (i : Nat)
    (h14 : 14 ≤ i) (hlen : i < vs.length) :
    ((∀ j ∈ List.range' (i - 13) 14, 0 ≤ (deltaAt vs j).getD 0) →
      (∃ j ∈ List.range' (i - 13) 14, 0 < (deltaAt vs j).getD 0) →
      rsiAt vs i = some 100) ∧
    ((∀ j ∈ List.range' (i - 13) 14, deltaAt vs j = some 0) →
      rsiAt vs i = none) := by
  have hguard : ¬ (i < 13 ∨ vs.length ≤ i) := by omega
  constructor
  · rintro hnn ⟨j₀, hj₀, hd₀⟩
    have hloss : listMean ((List.range' (i - 13) 14).map (lossCell vs)) = 0 := by
      have hz : ∀ x ∈ (List.range' (i - 13) 14).map (lossCell vs), x = 0 := by
        intro x hx
        obtain ⟨j, hj, rfl⟩ := List.mem_map.mp hx
        have := hnn j hj
        unfold lossCell
        cases hd : deltaAt vs j with
        | none => rfl
        | some d =>
          rw [hd] at this
          simp only [Option.getD_some] at this
          simp [not_lt.mpr this]
      rw [listMean, List.sum_eq_zero hz, zero_div]
    have hgain : 0 < listMean ((List.range' (i - 13) 14).map (gainCell vs)) := by
      have hnonneg : ∀ x ∈ (List.range' (i - 13) 14).map (gainCell vs), 0 ≤ x := by
        intro x hx
        obtain ⟨j, _, rfl⟩ := List.mem_map.mp hx
        unfold gainCell
        cases hd : deltaAt vs j with
        | none => exact le_rfl
        | some d => dsimp only; split <;> [linarith; exact le_rfl]
      have hmem : gainCell vs j₀ ∈ (List.range' (i - 13) 14).map (gainCell vs) :=
        List.mem_map_of_mem _ hj₀
      have hcell : 0 < gainCell vs j₀ := by
        unfold gainCell
        cases hd : deltaAt vs j₀ with
        | none => rw [hd] at hd₀; simp at hd₀
        | some d =>
          rw [hd] at hd₀
          simp only [Option.getD_some] at hd₀
          simp [hd₀]
      have hsum := List.single_le_sum hnonneg _ hmem
      rw [listMean]
      have hl14 : (((List.range' (i - 13) 14).map (gainCell vs)).length : ℚ) = 14 := by
        simp
      rw [hl14]
      exact div_pos (lt_of_lt_of_le hcell hsum) (by norm_num)
    simp only [rsiAt, hguard, if_false]
    rw [if_pos hloss, if_neg (ne_of_gt hgain)]
  · intro hz
    have hmean0 : ∀ f : List ℚ → Nat → ℚ, (∀ j ∈ List.range' (i - 13) 14, f vs j = 0) →
        listMean ((List.range' (i - 13) 14).map (f vs)) = 0 := by
      intro f hf
      rw [listMean, List.sum_eq_zero, zero_div]
      intro x hx
      obtain ⟨j, hj, rfl⟩ := List.mem_map.mp hx
      exact hf j hj
    have hl : listMean ((List.range' (i - 13) 14).map (lossCell vs)) = 0 := by
      refine hmean0 _ fun j hj => ?_
      unfold lossCell
      rw [hz j hj]
      norm_num
    have hg : listMean ((List.range' (i - 13) 14).map (gainCell vs)) = 0 := by
      refine hmean0 _ fun j hj => ?_
      unfold gainCell
      rw [hz j hj]
      norm_num
    simp only [rsiAt, hguard, if_false]
    rw [if_pos hl, if_pos hg]

theorem pct_tail (rest : List ℚ) : ∀ v0 : ℚ,
    (List.range rest.length).map (fun j => pctChangeAt 1 (v0 :: rest) (j + 1)) =
    (pcts v0 rest).map some := by
  induction rest with
  | nil => intro v0; rfl
  | cons x xs ih =>
    intro v0
    simp only [List.length_cons, pcts, List.map_cons]
    rw [List.range_succ_eq_map, List.map_cons, List.map_map]
    congr 1
    · simp [pctChangeAt]
    · rw [← ih x]
      apply List.map_congr_left
      intro j _
      show pctChangeAt 1 (v0 :: x :: xs) (j + 1 + 1) = pctChangeAt 1 (x :: xs) (j + 1)
      simp [pctChangeAt]

theorem dailyReturns_cons (v0 : ℚ) (rest : List ℚ) :
    dailyReturns (v0 :: rest) = none :: (pcts v0 rest).map some := by
  unfold dailyReturns
  simp only [List.length_cons]
  rw [List.range_succ_eq_map, List.map_cons, List.map_map]
  congr 1
  exact pct_tail rest v0

theorem cumprodSkip_pcts (rest : List ℚ) : ∀ prev acc : ℚ, 0 < prev →
    (∀ x ∈ rest, 0 < x) →
    cumprodSkip acc ((pcts prev rest).map (fun r => some (1 + r))) =
    rest.map (fun v => some (acc * v / prev)) := by
  induction rest with
  | nil => intro prev acc _ _; rfl
  | cons x xs ih =>
    intro prev acc hprev hall
    have hx : 0 < x := hall x (by simp)
    have hprev0 : prev ≠ 0 := ne_of_gt hprev
    have hx0 : x ≠ 0 := ne_of_gt hx
    simp only [pcts, List.map_cons, cumprodSkip]
    have he : acc * (1 + (x - prev) / prev) = acc * x / prev := by
      field_simp
    rw [he, ih x (acc * x / prev) hx (fun y hy => hall y (by simp [hy]))]
    congr 1
    apply List.map_congr_left
    intro v _
    congr 1
    field_simp
    ring

theorem expMaxSkip_some (l : List ℚ) : ∀ a : ℚ,
    expMaxSkip (some a) (l.map some) = (runMax a l).map some := by
  induction l with
  | nil => intro a; rfl
  | cons x xs ih =>
    intro a
    simp only [List.map_cons, expMaxSkip, runMax]
    rw [ih (max a x)]

theorem expMaxSkip_none_cons (c : ℚ) (cs : List ℚ) :
    expMaxSkip none ((c :: cs).map some) = (c :: runMax c cs).map some := by
  simp only [List.map_cons, expMaxSkip]
  rw [expMaxSkip_some]

theorem ddCombine_cons_none (a b : List (Option ℚ)) :
    ddCombine (none :: a) (none :: b) = none :: ddCombine a b := rfl

theorem ddCombine_map_some (l₁ : List ℚ) : ∀ l₂ : List ℚ,
    ddCombine (l₁.map some) (l₂.map some) =
    (List.zipWith ddPoint l₁ l₂).map some := by
  induction l₁ with
  | nil => intro l₂; rfl
  | cons x xs ih =>
    intro l₂
    cases l₂ with
    | nil => rfl
    | cons y ys =>
      simp only [List.map_cons, List.zipWith_cons_cons]
      rw [← ih ys]
      rfl

theorem zipWith_ddPoint_scale (l₁ : List ℚ) : ∀ (l₂ : List ℚ) (c : ℚ), c ≠ 0 →
    List.zipWith ddPoint (l₁.map (· / c)) (l₂.map (· / c)) =
    List.zipWith ddPoint l₁ l₂ := by
  induction l₁ with
  | nil => intro l₂ c _; rfl
  | cons x xs ih =>
    intro l₂ c hc
    cases l₂ with
    | nil => rfl
    | cons y ys =>
      simp only [List.map_cons, List.zipWith_cons_cons]
      rw [ih ys c hc]
      congr 1
      unfold ddPoint
      by_cases hy : y = 0
      · simp [hy]
      · field_simp

theorem runMax_scale (l : List ℚ) : ∀ a c : ℚ, 0 < c →
    runMax (a / c) (l.map (· / c)) = (runMax a l).map (· / c) := by
  induction l with
  | nil => intros; rfl
  | cons x xs ih =>
    intro a c hc
    simp only [List.map_cons, runMax]
    have hm : max (a / c) (x / c) = max a x / c := by
      rcases le_total a x with h | h
      · rw [max_eq_right h, max_eq_right (by gcongr)]
      · rw [max_eq_left h, max_eq_left (by gcongr)]
    rw [hm, ih (max a x) c hc]

theorem listMinO_isSome (l : List ℚ) (h : l ≠ []) : ∃ m, listMinO l = some m := by
  cases l with
  | nil => exact absurd rfl h
  | cons x xs =>
    unfold listMinO
    cases listMinO xs <;> exact ⟨_, rfl⟩

theorem listMinO_mem_le (l : List ℚ) : ∀ m, listMinO l = some m →
    m ∈ l ∧ ∀ x ∈ l, m ≤ x := by
  induction l with
  | nil => intro m h; exact absurd h (by simp [listMinO])
  | cons x xs ih =>
    intro m h
    unfold listMinO at h
    cases hxs : listMinO xs with
    | none =>
      rw [hxs] at h
      injection h with h
      subst h
      have hempty : xs = [] := by
        cases xs with
        | nil => rfl
        | cons y ys =>
          exact absurd hxs (by unfold listMinO; cases listMinO ys <;> simp)
      subst hempty
      exact ⟨by simp, by simp⟩
    | some m' =>
      rw [hxs] at h
      injection h with h
      subst h
      obtain ⟨hmem, hle⟩ := ih m' hxs
      constructor
      · rcases le_total x m' with hc | hc
        · rw [min_eq_left hc]; exact List.mem_cons_self x xs
        · rw [min_eq_right hc]; exact List.mem_cons_of_mem x hmem
      · intro z hz
        rcases List.mem_cons.mp hz with rfl | hz
        · exact min_le_left _ _
        · exact le_trans (min_le_right x m') (hle z hz)

theorem ddlist_bounds (rest : List ℚ) : ∀ a : ℚ, 0 < a → (∀ v ∈ rest, 0 < v) →
    (∀ x ∈ List.zipWith ddPoint rest (runMax a rest), -1 < x ∧ x ≤ 0) ∧
    ((∀ x ∈ List.zipWith ddPoint rest (runMax a rest), 0 ≤ x) ↔
      List.Chain' (· ≤ ·) (a :: rest)) := by
  induction rest with
  | nil =>
    intro a _ _
    exact ⟨by simp, by simp⟩
  | cons x xs ih =>
    intro a ha hall
    have hx : 0 < x := hall x (by simp)
    have hmax : 0 < max a x := lt_max_of_lt_right hx
    simp only [runMax, List.zipWith_cons_cons]
    obtain ⟨ihb, ihiff⟩ := ih (max a x) hmax (fun v hv => hall v (by simp [hv]))
    have hhead_le : ddPoint x (max a x) ≤ 0 := by
      unfold ddPoint
      rw [div_nonpos_iff]
      right
      exact ⟨sub_nonpos.mpr (le_max_right a x), hmax.le⟩
    have hhead_gt : -1 < ddPoint x (max a x) := by
      unfold ddPoint
      rw [lt_div_iff₀ hmax]
      linarith
    have hhead_nonneg : 0 ≤ ddPoint x (max a x) ↔ a ≤ x := by
      unfold ddPoint
      rw [le_div_iff₀ hmax]
      constructor
      · intro h
        have hmx : max a x ≤ x := by linarith
        exact le_trans (le_max_left a x) hmx
      · intro h
        rw [max_eq_right h]
        linarith
    constructor
    · intro z hz
      rcases List.mem_cons.mp hz with rfl | hz
      · exact ⟨hhead_gt, hhead_le⟩
      · exact ihb z hz
    · rw [List.chain'_cons]
      constructor
      · intro h
        have hax : a ≤ x := hhead_nonneg.mp (h _ (by simp))
        have htail := ihiff.mp (fun z hz => h z (by simp [hz]))
        rw [max_eq_right hax] at htail
        exact ⟨hax, htail⟩
      · rintro ⟨hax, hchain⟩
        intro z hz
        rcases List.mem_cons.mp hz with rfl | hz
        · exact hhead_nonneg.mpr hax
        · refine (ihiff.mpr ?_) z hz
          rw [max_eq_right hax]
          exact hchain

theorem max_drawdown_closed (v0 v1 : ℚ) (rest : List ℚ) (h0 : 0 < v0)
    (h1 : 0 < v1) (hrest : ∀ v ∈ rest, 0 < v) :
    max_drawdown (v0 :: v1 :: rest) =
    listMinO (0 :: List.zipWith ddPoint rest (runMax v1 rest)) := by
  have hpos : ∀ x ∈ v1 :: rest, 0 < x := by
    intro x hx
    rcases List.mem_cons.mp hx with rfl | hx
    · exact h1
    · exact hrest x hx
  have hcums : cumulativeOf (v0 :: v1 :: rest) =
      none :: ((v1 / v0) :: rest.map (· / v0)).map some := by
    unfold cumulativeOf
    rw [dailyReturns_cons]
    have hmap : ((none :: (pcts v0 (v1 :: rest)).map some).map (Option.map (1 + ·))) =
        none :: (pcts v0 (v1 :: rest)).map (fun r => some (1 + r)) := by
      simp [List.map_map, Function.comp]
    rw [hmap,
      show ∀ X, cumprodSkip 1 (none :: X) = none :: cumprodSkip 1 X from
        fun X => rfl,
      cumprodSkip_pcts (v1 :: rest) v0 1 h0 hpos]
    congr 1
    rw [show ((v1 / v0) :: rest.map (· / v0)) = (v1 :: rest).map (· / v0) from rfl,
      List.map_map]
    apply List.map_congr_left
    intro v _
    simp [one_mul]
  unfold max_drawdown
  rw [hcums,
    show ∀ Y, expMaxSkip none (none :: Y) = none :: expMaxSkip none Y from
      fun Y => rfl,
    expMaxSkip_none_cons, ddCombine_cons_none, ddCombine_map_some,
    runMax_scale rest v1 v0 h0, List.zipWith_cons_cons,
    zipWith_ddPoint_scale rest (runMax v1 rest) v0 (ne_of_gt h0)]
  have hdd0 : ddPoint (v1 / v0) (v1 / v0) = 0 := by
    unfold ddPoint
    rw [sub_self, zero_div]
  rw [hdd0]
  unfold minSkip
  simp only [List.filterMap_cons]
  congr 1
  rw [List.filterMap_map]
  simp

/-- C3 (amended): over any series of at least two strictly positive
portfolio values, the max drawdown is defined, lies in `[-1, 0]`, and is 0
iff the series **from its second entry on** is non-decreasing (the first
value never enters the pipeline because the first daily return is NaN: the
code's drawdown is blind to an initial drop).  A single-entry series yields
a missing (NaN) drawdown — see the counterexample. -/
theorem max_drawdown_bounds (v0 v1 : ℚ) (rest : List ℚ) (h0 : 0 < v0)
    (h1 : 0 < v1) (hrest : ∀ v ∈ rest, 0 < v) :
    ∃ d, max_drawdown (v0 :: v1 :: rest) = some d ∧ -1 ≤ d ∧ d ≤ 0 ∧
      (d = 0 ↔ List.Chain' (· ≤ ·) (v1 :: rest)) := by
  rw [max_drawdown_closed v0 v1 rest h0 h1 hrest]
  obtain ⟨d, hd⟩ := listMinO_isSome
    (0 :: List.zipWith ddPoint rest (runMax v1 rest)) (by simp)
  obtain ⟨hmem, hle⟩ := listMinO_mem_le _ d hd
  obtain ⟨hbounds, hiff⟩ := ddlist_bounds rest v1 h1 hrest
  have hchain : List.Chain' (· ≤ ·) (v1 :: rest) ↔
      ∀ x ∈ List.zipWith ddPoint rest (runMax v1 rest), 0 ≤ x := Iff.symm hiff
  refine ⟨d, hd, ?_, hle 0 (by simp), ?_⟩
  · rcases List.mem_cons.mp hmem with rfl | hmem'
    · norm_num
    · linarith [(hbounds d hmem').1]
  · constructor
    · intro hd0
      rw [hchain]
      intro z hz
      rw [← hd0]
      exact hle z (by simp [hz])
    · intro hch
      have hnonneg := hchain.mp hch
      have hd_ge : 0 ≤ d := by
        rcases List.mem_cons.mp hmem with rfl | hmem'
        · exact le_rfl
        · exact hnonneg d hmem'
      exact le_antisymm (hle 0 (by simp)) hd_ge

theorem runAux_length_le (P : CostParams) (rd : Nat) (df : List Row)
    (dates : List Nat) : ∀ (l : List Nat) (s : SimState),
    (runAux P rd df dates s l).length ≤ l.length := by
  intro l
  induction l with
  | nil => intro s; simp [runAux]
  | cons i rest ih =>
    intro s
    unfold runAux
    cases hstep : stepDay P rd df dates i s with
    | mk s' e =>
      cases e with
      | none =>
        simp only [List.length_cons]
        exact Nat.le_succ_of_le (ih s')
      | some entry =>
        simp only [List.length_cons]
        exact Nat.succ_le_succ (ih s')

/-- C2 (amended): the simulator emits exactly one Portfolio Value Series
entry per simulated day **except** on a rebalance-attempt day whose
candidate set is empty (no token with complete metrics passes the entry
filters): such a day executes `continue`, skipping both the mark-to-market
and the emit while retaining the existing positions.  Formally: a day's
step emits no entry iff it is a rebalance day with an empty candidate set,
the series never has more entries than simulated days, and it has exactly
one entry per simulated day iff no day of the run is skipped. -/
theorem portfolio_series_emission (P : CostParams) (rd : Nat) (df : List Row)
    (dates : List Nat) :
    (∀ i s, ((stepDay P rd df dates i s).2 = none ↔
      (shouldReb rd i s.lastReb = true ∧
        candidatesAt df (dates.getD i 0) = []))) ∧
    (∀ s l, (runAux P rd df dates s l).length ≤ l.length) ∧
    (∀ s l, ((runAux P rd df dates s l).length = l.length ↔
      NoSkip P rd df dates s l)) := by
  refine ⟨?_, fun s l => runAux_length_le P rd df dates l s, ?_⟩
  · intro i s
    unfold stepDay rebalPhase
    by_cases h1 : shouldReb rd i s.lastReb
    · rw [if_pos h1]
      by_cases h2 : candidatesAt df (dates.getD i 0) = []
      · rw [if_pos h2]
        exact ⟨fun _ => ⟨h1, h2⟩, fun _ => rfl⟩
      · rw [if_neg h2]
        constructor
        · intro hcontra
          exact absurd hcontra (by simp)
        · rintro ⟨-, hc⟩
          exact absurd hc h2
    · rw [if_neg h1]
      constructor
      · intro hcontra
        exact absurd hcontra (by simp)
      · rintro ⟨hc, -⟩
        exact absurd hc h1
  · intro s l
    induction l generalizing s with
    | nil => simp [runAux, NoSkip]
    | cons i rest ih =>
      unfold runAux NoSkip
      cases hstep : stepDay P rd df dates i s with
      | mk s' e =>
        cases e with
        | none =>
          simp only [List.length_cons, Option.isSome_none, Bool.false_eq_true,
            false_and, iff_false]
          intro hcontra
          have hle := runAux_length_le P rd df dates rest s'
          omega
        | some entry =>
          simp only [List.length_cons, Option.isSome_some, true_and,
            Nat.add_right_cancel_iff]
          exact ih s'

/-- C8 (amended): on an empty Price Panel the simulator raises `IndexError`
(from `dates[0]` in the banner print) instead of returning an empty
Portfolio Value Series; the Performance Analyzer applied to an empty series
likewise raises `IndexError` (from `.iloc[-1]`) and produces no numeric
output — the spec's `InsufficientData` condition surfaces as an uncaught
exception on both sides. -/
theorem empty_panel_errors (P : CostParams) (initial : ℚ) (rd : Nat) :
    backtest_strategy P [] initial rd = Except.error RunError.indexError ∧
    calculate_performance_metrics [] initial =
      Except.error RunError.indexError :=
  ⟨rfl, rfl⟩

/-- C6 (amended): in the main strategy (`backtesting.py`) the slippage and
transaction costs are deducted from a position's daily return on **every**
day the position is marked — ordinary holding days and all exits alike, the
deduction being strictly positive for any positive allocation — and the
entry price recorded at a rebalance is the candidate's raw latest price
with no cost applied at entry.  In the SMA strategy
(`sma_strategy_20.py`), by contrast, a non-stop-loss day's contribution
carries no friction at all, a stop-loss exit is charged slippage plus
transaction cost, and the recorded entry price is marked up by exactly the
prorated transaction cost (DEX fee plus gas) — strictly above the raw
price for the source's fee constants and positive allocation, and equal to
the raw price once the DEX fee and gas are zeroed, so no slippage term is
charged at entry. -/
theorem friction_every_marked_day :
    (∀ (df : List Row) (D nextD : Nat) (p : Position) (r r' : Row),
      rowAt df p.token D = some r → rowAt df p.token nextD = some r' →
      0 < p.alloc →
      (posDay codeParams df D nextD p).1 < (r'.value - r.value) / r.value) ∧
    (∀ (rd : Nat) (df : List Row) (dates : List Nat) (i : Nat)
      (s s' : SimState), rebalPhase rd df dates i s = some s' →
      s'.positions = s.positions ∨
      s'.positions = (selectedAt df (dates.getD i 0)).map
        (fun m => ⟨m.token, m.value,
          s.capital / (selectedAt df (dates.getD i 0)).length⟩)) ∧
    (∀ (fee gas today yest cap : ℚ) (pos : Position),
      (smaPosDelta fee gas today yest cap pos).2 = false →
      (smaPosDelta fee gas today yest cap pos).1 =
        (today - yest) / yest * (pos.alloc / cap)) ∧
    (∀ (fee gas today yest cap : ℚ) (pos : Position),
      (smaPosDelta fee gas today yest cap pos).2 = true →
      (smaPosDelta fee gas today yest cap pos).1 =
        (today - yest) / yest * (pos.alloc / cap) -
        (slippage_cost pos.alloc 100000000 +
          apply_transaction_costs pos.alloc fee gas / pos.alloc)) ∧
    (∀ (alloc value : ℚ), 0 < alloc → 0 < value →
      value < smaEntryPrice (3/1000) (3/20) alloc value) ∧
    (∀ (alloc value : ℚ), smaEntryPrice 0 0 alloc value = value) := by
  refine ⟨?_, ?_, ?_, ?_, ?_, ?_⟩
  · intro df D nextD p r r' h1 h2 ha
    unfold posDay
    rw [h1, h2]
    dsimp only
    have hs : 0 < slippage_cost p.alloc codeParams.poolLiquidity := by
      show 0 < slippage_cost p.alloc 5000000
      unfold slippage_cost
      rw [if_neg (by norm_num)]
      dsimp only
      split_ifs <;> norm_num
    have ht : 0 < apply_transaction_costs p.alloc codeParams.dexFee
        codeParams.gasUsd / p.alloc := by
      show 0 < (p.alloc * (3/1000) + 3/20) / p.alloc
      apply div_pos _ ha
      have := mul_pos ha (show (0:ℚ) < 3/1000 by norm_num)
      linarith
    linarith
  · intro rd df dates i s s' hreb
    unfold rebalPhase at hreb
    by_cases h1 : shouldReb rd i s.lastReb
    · rw [if_pos h1] at hreb
      by_cases h2 : candidatesAt df (dates.getD i 0) = []
      · rw [if_pos h2] at hreb
        cases hreb
      · rw [if_neg h2] at hreb
        injection hreb with hreb
        subst hreb
        dsimp only
        split
        · left
          rfl
        · right
          rfl
    · rw [if_neg h1] at hreb
      injection hreb with hreb
      subst hreb
      left
      rfl
  · intro fee gas today yest cap pos h
    by_cases hc : (today - pos.entry) / pos.entry < -(8/100)
    · exfalso
      simp only [smaPosDelta, hc, if_true] at h
      exact Bool.noConfusion h
    · simp only [smaPosDelta, hc, if_false]
  · intro fee gas today yest cap pos h
    by_cases hc : (today - pos.entry) / pos.entry < -(8/100)
    · simp only [smaPosDelta, hc, if_true]
    · exfalso
      simp only [smaPosDelta, hc, if_false] at h
      exact Bool.noConfusion h
  · intro alloc value ha hv
    show value < value * (1 + (alloc * (3/1000) + 3/20) / alloc)
    have hm : 0 < (alloc * (3/1000) + 3/20) / alloc := by
      apply div_pos _ ha
      have := mul_pos ha (show (0:ℚ) < 3/1000 by norm_num)
      linarith
    nlinarith
  · intro alloc value
    show value * (1 + (alloc * 0 + 0) / alloc) = value
    rw [mul_zero, add_zero, zero_div, add_zero, mul_one]

/-- C9: a position whose total return since entry breaches the −12%
stop-loss floor on a marked day is removed from the Portfolio State at the
end of that day (no position on its token survives the day); a token absent
from the state that is never re-selected by a rebalance stays absent after
any simulated day; and an absent token contributes exactly zero to the
blended daily portfolio return. -/
theorem stop_loss_removal (P : CostParams) (rd : Nat) (df : List Row)
    (dates : List Nat) :
    (∀ (i : Nat) (s : SimState) (p : Position) (r r' : Row),
      p ∈ s.positions → i + 1 < dates.length →
      rowAt df p.token (dates.getD i 0) = some r →
      rowAt df p.token (dates.getD (i + 1) 0) = some r' →
      (r'.value - p.entry) / p.entry < -(12/100) →
      ∀ q ∈ (markPhase P df dates i s).positions, q.token ≠ p.token) ∧
    (∀ (t i : Nat) (s : SimState),
      (∀ q ∈ s.positions, q.token ≠ t) →
      (∀ m ∈ selectedAt df (dates.getD i 0), m.token ≠ t) →
      ∀ q ∈ (stepDay P rd df dates i s).1.positions, q.token ≠ t) ∧
    (∀ (t D nextD : Nat) (positions : List Position),
      (∀ q ∈ positions, q.token ≠ t) →
      tokenContribution P df D nextD t positions = 0) := by
  have hmark_sub : ∀ (i : Nat) (s : SimState),
      ∀ q ∈ (markPhase P df dates i s).positions, q ∈ s.positions := by
    intro i s q hq
    unfold markPhase at hq
    split at hq
    · exact (List.mem_filter.mp hq).1
    · exact hq
  refine ⟨?_, ?_, ?_⟩
  · intro i s p r r' hp hi h1 h2 hsl q hq hEq
    have hne : s.positions ≠ [] := by
      intro hcontra
      rw [hcontra] at hp
      exact absurd hp (List.not_mem_nil p)
    unfold markPhase at hq
    rw [if_pos ⟨hi, hne⟩] at hq
    have hq' := List.mem_filter.mp hq
    have hpexit : (posDay P df (dates.getD i 0) (dates.getD (i + 1) 0) p).2 = true := by
      unfold posDay
      rw [h1, h2]
      dsimp only
      unfold exitTest
      simp [hsl]
    have hmem : p.token ∈ (s.positions.filter
        (fun p' => (posDay P df (dates.getD i 0) (dates.getD (i + 1) 0) p').2)).map
        (·.token) :=
      List.mem_map_of_mem _ (List.mem_filter.mpr ⟨hp, hpexit⟩)
    have hcontains := hq'.2
    rw [hEq] at hcontains
    simp only [Bool.not_eq_true', List.contains_eq_any_beq] at hcontains
    rw [List.any_eq_false] at hcontains
    exact absurd (by simp : (p.token == p.token) = true)
      (hcontains p.token hmem)
  · intro t i s hs hsel q hq
    unfold stepDay at hq
    cases hreb : rebalPhase rd df dates i s with
    | none =>
      rw [hreb] at hq
      exact hs q hq
    | some s1 =>
      rw [hreb] at hq
      dsimp only at hq
      have hq1 := hmark_sub i s1 q hq
      unfold rebalPhase at hreb
      by_cases h1 : shouldReb rd i s.lastReb
      · rw [if_pos h1] at hreb
        by_cases h2 : candidatesAt df (dates.getD i 0) = []
        · rw [if_pos h2] at hreb
          cases hreb
        · rw [if_neg h2] at hreb
          injection hreb with hreb
          subst hreb
          by_cases h3 : selectedAt df (dates.getD i 0) = []
          · dsimp only at hq1
            rw [if_pos h3] at hq1
            exact hs q hq1
          · dsimp only at hq1
            rw [if_neg h3] at hq1
            obtain ⟨m, hm, rfl⟩ := List.mem_map.mp hq1
            exact hsel m hm
      · rw [if_neg h1] at hreb
        injection hreb with hreb
        subst hreb
        exact hs q hq1
  · intro t D nextD positions h
    unfold tokenContribution
    have hfil : positions.filter (fun p => decide (p.token = t)) = [] := by
      rw [List.filter_eq_nil_iff]
      intro a ha
      simp [h a ha]
    rw [hfil]
    rfl

theorem rebalPhase_capital (rd : Nat) (df : List Row) (dates : List Nat)
    (i : Nat) (s s' : SimState) (h : rebalPhase rd df dates i s = some s') :
    s'.capital = s.capital := by
  unfold rebalPhase at h
  by_cases h1 : shouldReb rd i s.lastReb
  · rw [if_pos h1] at h
    by_cases h2 : candidatesAt df (dates.getD i 0) = []
    · rw [if_pos h2] at h
      cases h
    · rw [if_neg h2] at h
      injection h with h
      subst h
      rfl
  · rw [if_neg h1] at h
    injection h with h
    subst h
    rfl

theorem markPhase_empty (P : CostParams) (df : List Row) (dates : List Nat)
    (i : Nat) (s : SimState) (h : s.positions = []) :
    markPhase P df dates i s = s := by
  unfold markPhase
  rw [if_neg]
  rintro ⟨-, hne⟩
  exact hne h

theorem runStates_cons (P : CostParams) (rd : Nat) (df : List Row)
    (dates : List Nat) (s : SimState) (i : Nat) (l : List Nat) :
    runStates P rd df dates s (i :: l) =
    runStates P rd df dates (stepDay P rd df dates i s).1 l := rfl

theorem markPhase_single (P : CostParams) (hfee : P.dexFee = 0)
    (hgas : P.gasUsd = 0) (hpool : P.poolLiquidity ≤ 0) (df : List Row)
    (dates : List Nat) (i : Nat) (t : Nat) (e al cap : ℚ) (lastReb : Nat)
    (r r' : Row) (hi : i + 1 < dates.length)
    (h1 : rowAt df t (dates.getD i 0) = some r)
    (h2 : rowAt df t (dates.getD (i + 1) 0) = some r')
    (hr : r.value ≠ 0) (hexit : exitTest e r'.value r = false) :
    markPhase P df dates i ⟨cap, [⟨t, e, al⟩], lastReb⟩ =
      ⟨cap * (r'.value / r.value), [⟨t, e, al⟩], lastReb⟩ := by
  have hpd : posDay P df (dates.getD i 0) (dates.getD (i + 1) 0) ⟨t, e, al⟩ =
      ((r'.value - r.value) / r.value, false) := by
    unfold posDay
    rw [show (⟨t, e, al⟩ : Position).token = t from rfl, h1, h2]
    dsimp only
    rw [hexit]
    congr 1
    rw [hfee, hgas]
    unfold slippage_cost apply_transaction_costs
    rw [if_pos hpool]
    ring_nf
  unfold markPhase
  rw [if_pos ⟨hi, by simp⟩]
  simp only [hpd, List.map_cons, List.map_nil, List.sum_cons, List.sum_nil,
    List.filter_cons, List.filter_nil, List.length_cons, List.length_nil,
    SimState.mk.injEq]
  refine ⟨?_, ?_, trivial⟩
  · rw [Nat.cast_one, div_one, add_zero]
    congr 1
    field_simp
  · simp

theorem emptyPhase_capital (P : CostParams) (rd : Nat) (df : List Row)
    (dates : List Nat) : ∀ (k i : Nat) (s : SimState),
    emptyPhaseB P rd df dates i k s = true →
    (runStates P rd df dates s (List.range' i k)).capital = s.capital := by
  intro k
  induction k with
  | zero => intro i s _; rfl
  | succ n ih =>
    intro i s h
    unfold emptyPhaseB at h
    rw [List.range'_succ, runStates_cons]
    cases hreb : rebalPhase rd df dates i s with
    | none =>
      rw [hreb] at h
      have hstep : (stepDay P rd df dates i s).1 = s := by
        unfold stepDay
        rw [hreb]
      rw [hstep]
      exact ih (i + 1) s h
    | some s1 =>
      rw [hreb] at h
      dsimp only at h
      rw [Bool.and_eq_true] at h
      obtain ⟨hem, hrec⟩ := h
      have hpos1 : s1.positions = [] := List.isEmpty_iff.mp hem
      have hstep : (stepDay P rd df dates i s).1 = markPhase P df dates i s1 := by
        unfold stepDay
        rw [hreb]
      rw [hstep, ih (i + 1) _ hrec, markPhase_empty P df dates i s1 hpos1]
      exact rebalPhase_capital rd df dates i s s1 hreb

theorem cleanHold_capital (P : CostParams) (hfee : P.dexFee = 0)
    (hgas : P.gasUsd = 0) (hpool : P.poolLiquidity ≤ 0) (rd : Nat)
    (df : List Row) (dates : List Nat) (t : Nat) :
    ∀ (k i : Nat) (s : SimState), i + k + 1 = dates.length →
    cleanHoldB P rd df dates t i k s = true →
    ∀ r, rowAt df t (dates.getD i 0) = some r →
    ∃ r'', rowAt df t (dates.getD (i + k) 0) = some r'' ∧
      (runStates P rd df dates s (List.range' i (k + 1))).capital =
        s.capital * r''.value / r.value := by
  intro k
  induction k with
  | zero =>
    intro i s hlen hch r hr
    refine ⟨r, by simpa using hr, ?_⟩
    unfold cleanHoldB at hch
    rw [hr] at hch
    dsimp only at hch
    rw [Bool.and_eq_true] at hch
    obtain ⟨hrebs, hrv⟩ := hch
    have hrv : 0 < r.value := of_decide_eq_true hrv
    cases hstep : rebalPhase rd df dates i s with
    | none =>
      rw [hstep] at hrebs
      exact absurd hrebs (by simp)
    | some s1 =>
      have hmark : markPhase P df dates i s1 = s1 := by
        unfold markPhase
        rw [if_neg]
        rintro ⟨hlt, -⟩
        omega
      rw [show List.range' i (0 + 1) = [i] from rfl, runStates_cons]
      have hstep1 : (stepDay P rd df dates i s).1 = markPhase P df dates i s1 := by
        unfold stepDay
        rw [hstep]
      rw [hstep1, hmark]
      show s1.capital = s.capital * r.value / r.value
      rw [rebalPhase_capital rd df dates i s s1 hstep, mul_div_assoc,
        div_self (ne_of_gt hrv), mul_one]
  | succ k ih =>
    intro i s hlen hch r hr
    unfold cleanHoldB at hch
    cases hstep : rebalPhase rd df dates i s with
    | none =>
      rw [hstep] at hch
      exact absurd hch (by simp)
    | some s1 =>
      rw [hstep] at hch
      dsimp only at hch
      cases hpos : s1.positions with
      | nil =>
        rw [hpos] at hch
        exact absurd hch (by simp)
      | cons p rest =>
        cases rest with
        | cons q rest' =>
          rw [hpos] at hch
          exact absurd hch (by simp)
        | nil =>
          rw [hpos, hr] at hch
          cases hnext : rowAt df t (dates.getD (i + 1) 0) with
          | none =>
            rw [hnext] at hch
            exact absurd hch (by simp)
          | some r' =>
            rw [hnext] at hch
            simp only [Bool.and_eq_true] at hch
            obtain ⟨⟨⟨⟨htok, hrv⟩, hrv'⟩, hex⟩, hrec⟩ := hch
            obtain ⟨tok, e, al⟩ := p
            have htok' : tok = t := of_decide_eq_true htok
            subst htok'
            have hrv : 0 < r.value := of_decide_eq_true hrv
            have hrv' : 0 < r'.value := of_decide_eq_true hrv'
            have hexit : exitTest e r'.value r = false := by
              rwa [Bool.not_eq_true'] at hex
            obtain ⟨c1, pos1, lr1⟩ := s1
            dsimp only at hpos
            subst hpos
            have hmark := markPhase_single P hfee hgas hpool df dates i tok e al
              c1 lr1 r r' (by omega) hr hnext (ne_of_gt hrv) hexit
            obtain ⟨r'', hr'', hcap⟩ := ih (i + 1)
              (markPhase P df dates i ⟨c1, [⟨tok, e, al⟩], lr1⟩) (by omega) hrec
              r' hnext
            refine ⟨r'', ?_, ?_⟩
            · rw [show i + (k + 1) = i + 1 + k from by omega]
              exact hr''
            · rw [show (k + 1) + 1 = (k + 1) + 1 from rfl, List.range'_succ,
                runStates_cons]
              have hstep1 : (stepDay P rd df dates i s).1 =
                  markPhase P df dates i ⟨c1, [⟨tok, e, al⟩], lr1⟩ := by
                unfold stepDay
                rw [hstep]
              rw [hstep1, hcap, hmark]
              dsimp only
              have hc1 : c1 = s.capital := by
                have := rebalPhase_capital rd df dates i s _ hstep
                simpa using this
              rw [hc1]
              field_simp
              ring

theorem drop_range (a n : Nat) :
    (List.range n).drop a = List.range' a (n - a) := by
  by_cases h : a ≤ n
  · have hsplit2 : List.range' 0 a ++ List.range' (0 + a) (n - a) =
        List.range' 0 n := by
      rw [List.range'_append_1]
      congr 1
      omega
    rw [List.range_eq_range', ← hsplit2, Nat.zero_add,
      List.drop_left' (by simp)]
  · rw [show n - a = 0 from by omega]
    apply List.drop_eq_nil_of_le
    simp
    omega

theorem runStates_append (P : CostParams) (rd : Nat) (df : List Row)
    (dates : List Nat) (s : SimState) (l₁ l₂ : List Nat) :
    runStates P rd df dates s (l₁ ++ l₂) =
    runStates P rd df dates (runStates P rd df dates s l₁) l₂ := by
  unfold runStates
  rw [List.foldl_append]

/-- C4 (amended): capital conservation absent frictions.  For a run of
`backtest_strategy` with zero fee, zero gas and non-positive pool liquidity
(zero slippage) in which no rebalance opens a position for the first `m`
simulated days and from day `200 + m` to the end exactly one position, on
token `t`, is held — prices present and positive on every simulated day, no
exit triggered, **and no rebalance day skipped** (the amendment: a
rebalance attempt that finds no candidate `continue`s over the
mark-to-market, silently dropping that day's return, see the
counterexample) — the final capital equals the initial capital times
(final price / entry price). -/
theorem capital_conservation (P : CostParams) (hfee : P.dexFee = 0)
    (hgas : P.gasUsd = 0) (hpool : P.poolLiquidity ≤ 0) (rd : Nat)
    (df : List Row) (t : Nat) (cap0 : ℚ) (m k : Nat) (r : Row)
    (hlen : 200 + m + (k + 1) = (sortedDates df).length)
    (hempty : emptyPhaseB P rd df (sortedDates df) 200 m (initState cap0) = true)
    (hclean : cleanHoldB P rd df (sortedDates df) t (200 + m) k
      (runStates P rd df (sortedDates df) (initState cap0)
        (List.range' 200 m)) = true)
    (hentry : rowAt df t ((sortedDates df).getD (200 + m) 0) = some r) :
    ∃ r'', rowAt df t
        ((sortedDates df).getD ((sortedDates df).length - 1) 0) = some r'' ∧
      (runStates P rd df (sortedDates df) (initState cap0)
        ((List.range (sortedDates df).length).drop 200)).capital =
        cap0 * r''.value / r.value := by
  set dates := sortedDates df with hdates
  have hsplit : (List.range dates.length).drop 200 =
      List.range' 200 m ++ List.range' (200 + m) (k + 1) := by
    rw [drop_range, show dates.length - 200 = (k + 1) + m from by omega,
      ← List.range'_append_1]
  rw [hsplit, runStates_append]
  obtain ⟨r'', hr'', hcap⟩ := cleanHold_capital P hfee hgas hpool rd df dates t
    k (200 + m)
    (runStates P rd df dates (initState cap0) (List.range' 200 m))
    (by omega) hclean r hentry
  refine ⟨r'', ?_, ?_⟩
  · rw [show dates.length - 1 = 200 + m + k from by omega]
    exact hr''
  · rw [hcap, emptyPhase_capital P rd df dates m 200 (initState cap0) hempty]
    rfl

/-! ## Concrete witnesses and counterexamples

The Batteries `Rat` arithmetic operations are `@[irreducible]`, which keeps
the elaborator from evaluating concrete runs of the simulator; the kernel
ignores reducibility, so inside this section they are restored to
`semireducible` to let `decide` evaluate the embedded program on concrete
panels. -/

section ConcreteEvaluation

set_option allowUnsafeReducibility true

attribute [local semireducible] Rat.mul Rat.add Rat.sub Rat.inv

set_option maxRecDepth 100000

set_option maxHeartbeats 4000000

/-- C1 counterexample: with cutoff `D = 728`, all 729 observations of
`panelRowsC1` are dated ≤ D and the token is rejected (728 < 730 rows);
adding the single observation `futureRowC1` dated strictly after D flips
the quality filter's decision to "keep" — the eligibility decision is not
invariant under adding future observations. -/
theorem quality_filter_lookahead_counterexample :
    (∀ r ∈ panelRowsC1, r.ts ≤ 728) ∧ 728 < futureRowC1.ts ∧
    qualityFilterKeep panelRowsC1 = false ∧
    qualityFilterKeep (panelRowsC1 ++ [futureRowC1]) = true := by decide!

/-- Witness for C1 at a concrete series. -/
theorem indicator_values_causal_witness :
    rsiAt ([1, 2, 3] ++ [10]) 2 = rsiAt [1, 2, 3] 2 ∧
    (∀ n, pctChangeAt n ([1, 2, 3] ++ [10]) 2 = pctChangeAt n [1, 2, 3] 2) :=
  ⟨(indicator_values_causal [1, 2, 3] [10] 2 (by norm_num)).2.2.2.1,
    (indicator_values_causal [1, 2, 3] [10] 2 (by norm_num)).2.2.2.2.1⟩

/-- C2 counterexample: `panelC2` has 208 dates, so days 200–207 (eight
days) are simulated, but the Portfolio Value Series has only seven entries:
day 207 is a rebalance attempt whose metrics all `dropna` away, and the
`continue` skips its mark-to-market and emit. -/
theorem portfolio_series_skip_counterexample :
    (sortedDates panelC2).length = 208 ∧
    (backtestRun codeParams panelC2 10000 7).length = 7 := by decide!

/-- C3 counterexample: the series `[2, 1]` (and `[2, 1, …]`) has max
drawdown 0 although it is strictly decreasing — the NaN first return hides
the initial drop — and the single-entry series `[7]` has a missing (NaN)
max drawdown, not a value in `[-1, 0]`. -/
theorem max_drawdown_counterexample :
    max_drawdown [2, 1] = some 0 ∧
    ¬ List.Chain' (· ≤ ·) [(2 : ℚ), 1] ∧
    max_drawdown [7] = none := by
  refine ⟨by decide, ?_, by decide⟩
  simp [List.chain'_cons]

/-- Witness for C3 at the concrete series `[2, 1]`. -/
theorem max_drawdown_bounds_witness : max_drawdown [(2 : ℚ), 1] = some 0 := by
  obtain ⟨d, hd, h1, h2, hiff⟩ :=
    max_drawdown_bounds 2 1 [] (by norm_num) (by norm_num) (by simp)
  have hd0 : d = 0 := hiff.mpr (by simp)
  rwa [hd0] at hd

/-- C4 counterexample: in `panelC4` a single token is entered on day 207 at
price 2 and held to the end with prices present on every simulated day and
no exit triggered, under the frictionless configuration; yet the day-214
rebalance attempt finds no candidate (RSI 60 that day), `continue`s over
the mark-to-market, and the 2 → 4 move of the skipped transition never
reaches the capital: the final capital is 10000, not
`10000 × (final price / entry price) = 20000`. -/
theorem capital_conservation_counterexample :
    (sortedDates panelC4).length = 217 ∧
    (backtestRun zeroParams panelC4 10000 7).map Entry.n_tokens =
      [0, 0, 0, 0, 0, 0, 0, 1, 1, 1, 1, 1, 1, 1, 1, 1] ∧
    (backtestRun zeroParams panelC4 10000 7).getLast? = some ⟨216, 10000, 1⟩ ∧
    rowAt panelC4 0 207 = some (rowC4 207) ∧ (rowC4 207).value = 2 ∧
    rowAt panelC4 0 216 = some (rowC4 216) ∧ (rowC4 216).value = 4 ∧
    (10000 : ℚ) ≠ 10000 * (4 / 2) := by decide!

/-- Witness for C4: on `panelW4` (no skipped day; one clean single-token
hold from day 207, entry price 2, final price 3) the theorem yields final
capital `10000 × 3 / 2 = 15000`. -/
theorem capital_conservation_witness :
    (runStates zeroParams 7 panelW4 (sortedDates panelW4) (initState 10000)
      ((List.range (sortedDates panelW4).length).drop 200)).capital = 15000 := by
  obtain ⟨r'', hr'', hcap⟩ := capital_conservation zeroParams rfl rfl
    (le_refl 0) 7 panelW4 0 10000 7 9 (rowW4 207) (by decide!) (by decide!)
    (by decide!) (by decide!)
  rw [hcap]
  have hx : rowAt panelW4 0
      ((sortedDates panelW4).getD ((sortedDates panelW4).length - 1) 0) =
      some (rowW4 216) := by decide!
  rw [hx] at hr''
  injection hr'' with hr''
  rw [← hr'']
  have h216 : (rowW4 216).value = 3 := by decide
  have h207 : (rowW4 207).value = 2 := by decide
  rw [h216, h207]
  norm_num

/-- C6 counterexample: an ordinary holding day (no exit flag) of the main
strategy on which the position's contribution is `-13/4000` although the
raw daily return is 0 — slippage and transaction cost are deducted on a
day that is neither an entry nor a stop-loss exit, refuting the claimed
asymmetry for `backtesting.py`. -/
theorem friction_holding_day_counterexample :
    (posDay codeParams dfC6 0 1 posC6).2 = false ∧
    (rowC6b.value - rowC6a.value) / rowC6a.value = 0 ∧
    (posDay codeParams dfC6 0 1 posC6).1 = -13/4000 ∧
    (posDay codeParams dfC6 0 1 posC6).1 ≠
      (rowC6b.value - rowC6a.value) / rowC6a.value := by decide

/-- Witness for C6 at concrete inputs. -/
theorem friction_every_marked_day_witness :
    (posDay codeParams dfC6 0 1 posC6).1 <
      (rowC6b.value - rowC6a.value) / rowC6a.value ∧
    (smaPosDelta (3/1000) (3/20) 1 1 1000 posC6).1 =
      (1 - 1) / 1 * (posC6.alloc / 1000) ∧
    (smaPosDelta (3/1000) (3/20) (1/2) 1 1000 posC9).1 =
      (1/2 - 1) / 1 * (posC9.alloc / 1000) -
      (slippage_cost posC9.alloc 100000000 +
        apply_transaction_costs posC9.alloc (3/1000) (3/20) / posC9.alloc) ∧
    (2 : ℚ) < smaEntryPrice (3/1000) (3/20) 1000 2 ∧
    smaEntryPrice 0 0 1000 2 = 2 :=
  ⟨friction_every_marked_day.1 dfC6 0 1 posC6 rowC6a rowC6b rfl rfl
      (by norm_num [posC6]),
    friction_every_marked_day.2.2.1 (3/1000) (3/20) 1 1 1000 posC6 (by decide),
    friction_every_marked_day.2.2.2.1 (3/1000) (3/20) (1/2) 1 1000 posC9
      (by decide),
    friction_every_marked_day.2.2.2.2.1 1000 2 (by norm_num) (by norm_num),
    friction_every_marked_day.2.2.2.2.2 1000 2⟩

/-- C8 counterexample: on the empty panel `backtest_strategy` raises
`IndexError` — it does not return the empty Portfolio Value Series the
claim asserts. -/
theorem empty_panel_counterexample :
    backtest_strategy codeParams [] 10000 7 ≠ Except.ok [] ∧
    backtest_strategy codeParams [] 10000 7 =
      Except.error RunError.indexError := by
  constructor
  · intro h
    rw [show backtest_strategy codeParams [] 10000 7 =
      Except.error RunError.indexError from rfl] at h
    exact Except.noConfusion h
  · rfl

/-- Witness for C9: after the breach day, no position on token 5 remains in
the state, and an absent token contributes zero. -/
theorem stop_loss_removal_witness :
    posC9 ∉ (markPhase codeParams dfC9 [0, 1] 0 stateC9).positions ∧
    tokenContribution codeParams dfC9 0 1 5 [] = 0 :=
  ⟨fun hmem =>
      (stop_loss_removal codeParams 7 dfC9 [0, 1]).1 0 stateC9 posC9 rowC9a
        rowC9b (by decide) (by decide) rfl rfl (by decide) posC9 hmem rfl,
    (stop_loss_removal codeParams 7 dfC9 [0, 1]).2.2 5 0 1 [] (by simp)⟩

/-- Witness for C10: a window with one positive and thirteen zero changes
gives RSI exactly 100; a window of fourteen zero changes gives a missing
RSI. -/
theorem rsiAt_zero_loss_convention_witness :
    rsiAt ((0 : ℚ) :: List.replicate 14 1) 14 = some 100 ∧
    rsiAt (List.replicate 15 (5 : ℚ)) 14 = none :=
  ⟨(rsiAt_zero_loss_convention ((0 : ℚ) :: List.replicate 14 1) 14
      (by norm_num) (by decide)).1 (by decide) (by decide),
    (rsiAt_zero_loss_convention (List.replicate 15 (5 : ℚ)) 14
      (by norm_num) (by decide)).2 (by decide)⟩

end ConcreteEvaluation

end HVB
